import Mathlib

/-
Verification of the infrastructure digest bot (src/digest_bot.py).
Strings are modelled as lists of characters; the pure text-processing
functions of the script are translated directly and the behavioural
claims of the specification are settled against them.
-/

set_option maxRecDepth 8192

namespace DigestBot

/-- Whitespace characters recognised by Python: the set matched by the
regex whitespace class used in `clean_text` and stripped by the `strip`
method — ASCII whitespace, the information separators 0x1C-0x1F, and the
Unicode space characters. -/
def pyIsSpace (c : Char) : Bool :=
  decide (c.toNat ∈ [9, 10, 11, 12, 13, 28, 29, 30, 31, 32, 133, 160, 5760,
    8192, 8193, 8194, 8195, 8196, 8197, 8198, 8199, 8200, 8201, 8202,
    8232, 8233, 8239, 8287, 12288])

/-- Python lower-casing restricted to ASCII letters (A-Z become a-z,
every other character is left unchanged).  Titles reaching the
categorizer have passed `clean_text`, which removes every non-ASCII
character, so this models the `lower` call on them. -/
def pyLower (c : Char) : Char :=
  if 65 ≤ c.toNat ∧ c.toNat ≤ 90 then Char.ofNat (c.toNat + 32) else c

/-- Python `strip`: drop leading and trailing whitespace. -/
def pyStrip (l : List Char) : List Char :=
  ((l.dropWhile pyIsSpace).reverse.dropWhile pyIsSpace).reverse

/-- The whitespace-collapsing substitution of `clean_text` (regex
`\s+` replaced by a single space): each maximal run of whitespace
characters is replaced by one space.  The Boolean flag records whether
the previous character was part of a run whose space was already
emitted. -/
def collapseWs : Bool → List Char → List Char
  | _, [] => []
  | prevWs, c :: rest =>
    if pyIsSpace c then
      if prevWs then collapseWs true rest else ' ' :: collapseWs true rest
    else c :: collapseWs false rest

/-- Characters kept by the substitution of `clean_text` that deletes runs
of characters outside `\x00`-`\x7F`: deleting each maximal run is the
same as deleting every character above 0x7F. -/
def isAsciiChar (c : Char) : Bool := decide (c.toNat ≤ 127)

/-- The text of `clean_text` after stripping, whitespace collapsing and
non-ASCII removal — i.e. just before the truncation step. -/
def cleanedCore (s : List Char) : List Char :=
  (collapseWs false (pyStrip s)).filter isAsciiChar

/-- Embeds `clean_text` (src/digest_bot.py lines 62-67).  Empty ("falsy")
input yields the empty string; otherwise whitespace runs are collapsed to
single spaces with the ends trimmed, non-ASCII characters are removed,
and a result longer than 200 characters is cut to 200 with the
three-character ellipsis marker appended. -/
def clean_text (s : List Char) : List Char :=
  if s = [] then []
  else if (cleanedCore s).length > 200
    then (cleanedCore s).take 200 ++ ['.', '.', '.']
    else cleanedCore s

/-- A scraped headline: cleaned title, site label and resolved link,
exactly the dictionary built in `scrape_example`. -/
structure Headline where
  title : List Char
  source : List Char
  url : List Char
deriving DecidableEq

/-- Keyword list `energy` (src/digest_bot.py line 124). -/
def energy : List (List Char) := ["oil", "gas", "energy", "ongc"].map String.toList

/-- Keyword list `construction` (line 125). -/
def construction : List (List Char) :=
  ["construction", "infrastructure", "bridge", "metro"].map String.toList

/-- Keyword list `tenders` (line 126). -/
def tenders : List (List Char) := ["tender", "bid", "contract"].map String.toList

/-- Keyword list `tech` (line 127). -/
def tech : List (List Char) := ["technology", "digital", "ai"].map String.toList

/-- Keyword list `equipment` (line 128). -/
def equipment : List (List Char) :=
  ["crane", "loader", "excavator", "backhoe", "bulldozer", "heavy equipment",
    "jcb", "construction machine"].map String.toList

/-- Python `any(k in title for k in kws)`: some keyword occurs as a
contiguous substring of `t`. -/
def kwAny (kws : List (List Char)) (t : List Char) : Bool :=
  kws.any fun k => decide (k <:+: t)

/-- The same membership test as a proposition, used to state claims. -/
def kwHit (kws : List (List Char)) (t : List Char) : Prop :=
  ∃ k ∈ kws, k <:+: t

/-- The lower-cased title `h['title'].lower()` tested by the categorizer. -/
def lowerTitle (h : Headline) : List Char := h.title.map pyLower

/-- The six category labels, one per key of the `categories` dictionary. -/
inductive Category
  | energyOil
  | constructionInfra
  | tendersContracts
  | technologyInnovation
  | heavyEquipment
  | otherNews
deriving DecidableEq

/-- The if/elif chain of `categorize_headlines` (lines 130-143): the
first keyword list hit by the lower-cased title decides the bucket, in
the order energy, construction, tenders, equipment, tech, with Other
News as the final else branch. -/
def categoryOf (h : Headline) : Category :=
  if kwAny energy (lowerTitle h) then .energyOil
  else if kwAny construction (lowerTitle h) then .constructionInfra
  else if kwAny tenders (lowerTitle h) then .tendersContracts
  else if kwAny equipment (lowerTitle h) then .heavyEquipment
  else if kwAny tech (lowerTitle h) then .technologyInnovation
  else .otherNews

/-- The `categories` dictionary: six buckets in insertion order
Energy & Oil, Construction & Infrastructure, Tenders & Contracts,
Technology & Innovation, Heavy Equipment, Other News (lines 116-123). -/
structure Buckets where
  energyOil : List Headline
  constructionInfra : List Headline
  tendersContracts : List Headline
  technologyInnovation : List Headline
  heavyEquipment : List Headline
  otherNews : List Headline
deriving DecidableEq

/-- The freshly initialised dictionary with every bucket empty. -/
def Buckets.empty : Buckets := ⟨[], [], [], [], [], []⟩

/-- Embeds `categorize_headlines` (lines 115-145): every headline is
appended to the bucket chosen by the if/elif chain, in input order. -/
def categorize_headlines : List Headline → Buckets
  | [] => Buckets.empty
  | h :: rest =>
    let b := categorize_headlines rest
    match categoryOf h with
    | .energyOil => { b with energyOil := h :: b.energyOil }
    | .constructionInfra => { b with constructionInfra := h :: b.constructionInfra }
    | .tendersContracts => { b with tendersContracts := h :: b.tendersContracts }
    | .technologyInnovation => { b with technologyInnovation := h :: b.technologyInnovation }
    | .heavyEquipment => { b with heavyEquipment := h :: b.heavyEquipment }
    | .otherNews => { b with otherNews := h :: b.otherNews }

/-- The buckets in the iteration order of the dictionary (its insertion
order), paired with their display labels — the order used both by the
prompt builder and by the fallback digest. -/
def bucketsList (b : Buckets) : List (List Char × List Headline) :=
  [("Energy & Oil".toList, b.energyOil),
   ("Construction & Infrastructure".toList, b.constructionInfra),
   ("Tenders & Contracts".toList, b.tendersContracts),
   ("Technology & Innovation".toList, b.technologyInnovation),
   ("Heavy Equipment".toList, b.heavyEquipment),
   ("Other News".toList, b.otherNews)]

/-- Decimal digit character for a digit below ten. -/
def digitChar (d : Nat) : Char := Char.ofNat (48 + d)

/-- Decimal digits of a positive number, most significant first.  The
first argument is fuel bounding the number of divisions; it is always
instantiated with the number itself, which exceeds the digit count, so
the zero-fuel case is never reached. -/
def pyNatStrAux : Nat → Nat → List Char
  | _, 0 => []
  | 0, _ => []
  | fuel + 1, n => pyNatStrAux fuel (n / 10) ++ [digitChar (n % 10)]

/-- Decimal rendering of a natural number, as Python prints integers. -/
def pyNatStr (n : Nat) : List Char :=
  if n = 0 then ['0'] else pyNatStrAux n n

/-- Two-digit zero-padded day, as produced by the day field of the
`strftime` date format. -/
def pad2 (n : Nat) : List Char :=
  if n < 10 then '0' :: pyNatStr n else pyNatStr n

/-- English month names, for the month-name field of `strftime`
(index 0 is January). -/
def monthNamesList : List (List Char) :=
  ["January", "February", "March", "April", "May", "June", "July",
   "August", "September", "October", "November", "December"].map String.toList

/-- The current time in the Asia/Kolkata zone, to the precision the
composer consumes: hour of day and the three date fields (the month as a
zero-based index into the month-name table). -/
structure NowIST where
  hour : Nat
  day : Nat
  month : Nat
  year : Nat

/-- The `strftime` date string with format day, full month name, year. -/
def dateStr (now : NowIST) : List Char :=
  pad2 now.day ++ [' '] ++ monthNamesList.getD now.month [] ++ [' '] ++ pyNatStr now.year

/-- The greeting chosen from the hour in IST: morning before noon,
evening otherwise (lines 152 and 189). -/
def greetingFor (hour : Nat) : List Char :=
  if hour < 12 then "Good Morning Mr. Keshav Agarwal".toList
  else "Good Evening Mr. Keshav Agarwal".toList

/-- An ordering of the distinct elements of a list, modelling the Python
expression `list(set(xs))`: which distinct elements come out is fixed,
but their order depends on the per-process string hash seed, so the
model takes the ordering function as a parameter. -/
def SetOrder : Type := List (List Char) → List (List Char)

/-- A possible behaviour of `list(set(xs))`: the result is some
permutation of the distinct elements of `xs`. -/
def SetOrderOk (f : SetOrder) : Prop :=
  ∀ xs : List (List Char), (f xs).Perm xs.dedup

/-- All six buckets empty: the Python test `not any(values)`. -/
def Buckets.allEmpty (b : Buckets) : Prop :=
  b.energyOil = [] ∧ b.constructionInfra = [] ∧ b.tendersContracts = [] ∧
    b.technologyInnovation = [] ∧ b.heavyEquipment = [] ∧ b.otherNews = []

instance : DecidablePred Buckets.allEmpty := fun b =>
  inferInstanceAs (Decidable (b.energyOil = [] ∧ b.constructionInfra = [] ∧
    b.tendersContracts = [] ∧ b.technologyInnovation = [] ∧
    b.heavyEquipment = [] ∧ b.otherNews = []))

/-- The fixed closing line of every digest (line 201). -/
def signatureFull : List Char := "🚀 Stay ahead with CD Jindal AI Assistant".toList

/-- The signature text without the leading rocket emoji, the fixed
signature line named by the specification. -/
def signatureLine : List Char := "Stay ahead with CD Jindal AI Assistant".toList

/-- The line substituted when no bucket has any items (line 199). -/
def noNewsLine : List Char := "No infrastructure news today.".toList

/-- The opening of the fallback digest: bold greeting, date line and the
bold digest title (line 191). -/
def fallbackHeader (now : NowIST) : List Char :=
  "<b>".toList ++ greetingFor now.hour ++ "! 📈</b>\n".toList ++ dateStr now ++
    "\n\n<b>Daily Infrastructure Industry Digest</b>\n\n".toList

/-- The per-bucket summary line of the fallback digest: bold category
heading, then the number of updates and the first two source labels of
the ordering `setList` of the distinct sources (line 196). -/
def fallbackBucketLine (setList : SetOrder) (name : List Char)
    (items : List Headline) : List Char :=
  "<b>".toList ++ name ++ ":</b>\n".toList ++ pyNatStr items.length ++
    " key updates from ".toList ++
    List.intercalate ", ".toList ((setList (items.map Headline.source)).take 2) ++
    ".\n\n".toList

/-- Embeds `create_fallback_digest` (lines 185-202): header, then one
summary line per non-empty bucket in dictionary order, a no-news line
when every bucket is empty, and the fixed signature. -/
def create_fallback_digest (setList : SetOrder) (cat : Buckets) (now : NowIST) :
    List Char :=
  let body := (bucketsList cat).foldl
    (fun acc p => if p.2 = [] then acc else acc ++ fallbackBucketLine setList p.1 p.2)
    (fallbackHeader now)
  (if cat.allEmpty then body ++ noNewsLine ++ "\n\n".toList else body) ++ signatureFull

/-- The headline enumeration inside the prompt: for each non-empty
bucket a category line followed by one line per headline (lines 154-161). -/
def promptHeadlinesText (cat : Buckets) : List Char :=
  (bucketsList cat).foldl
    (fun acc p =>
      if p.2 = [] then acc
      else p.2.foldl
        (fun a h => a ++ "- ".toList ++ h.title ++ " (".toList ++ h.source ++ ")\n".toList)
        (acc ++ ['\n'] ++ p.1 ++ ":\n".toList))
    []

/-- Embeds the prompt built in `generate_digest_with_gemini`
(lines 163-177), with the no-news substitution when the enumeration is
blank. -/
def buildPrompt (cat : Buckets) (now : NowIST) : List Char :=
  let totalArticles := cat.energyOil.length + cat.constructionInfra.length +
    cat.tendersContracts.length + cat.technologyInnovation.length +
    cat.heavyEquipment.length + cat.otherNews.length
  let headlinesText :=
    if pyStrip (promptHeadlinesText cat) = []
      then "No infrastructure news available.".toList
      else promptHeadlinesText cat
  greetingFor now.hour ++ "! 📈\n".toList ++ dateStr now ++
    "\n\nHere are today's top Infrastructure Headlines (".toList ++
    pyNatStr totalArticles ++ " total):\n".toList ++ headlinesText ++
    "\n\nNow write a Telegram-friendly summary using the following rules:\n- Use only <b> and <i> HTML tags.\n- For each category (like Energy & Oil, Heavy Equipment, etc.), summarize in 2–3 impactful sentences.\n- Include specific company names, numbers, and regions.\n- Mention the source name (e.g., ET Infra), but do not hyperlink it.\n- Make a separate section for <b>Heavy Equipment</b> updates (like cranes, excavators, machinery).\n- End with: 🚀 Stay ahead with CD Jindal AI Assistant".toList

/-- Embeds `generate_digest_with_gemini` (lines 147-183).  The whole
body runs inside a try/except, so any failure of the generative call —
an error return or a raised exception — is modelled by the backend
returning `none`, in which case the except branch returns the fallback
digest; a successful call returns the response text verbatim. -/
def generate_digest_with_gemini (backend : List Char → Option (List Char))
    (setList : SetOrder) (cat : Buckets) (now : NowIST) : List Char :=
  match backend (buildPrompt cat now) with
  | some text => text
  | none => create_fallback_digest setList cat now

/-- One scan of the Python string replace method: every non-overlapping
occurrence of the pattern is replaced, scanning left to right and
continuing after each replacement.  The fuel argument bounds the number
of consumed characters; it is always instantiated with the full length,
and every step consumes at least one character, so the zero-fuel case is
never reached. -/
def replaceAllAux (pat repl : List Char) : Nat → List Char → List Char
  | _, [] => []
  | 0, s => s
  | fuel + 1, c :: rest =>
    if pat ≠ [] ∧ pat.isPrefixOf (c :: rest) then
      repl ++ replaceAllAux pat repl fuel (rest.drop (pat.length - 1))
    else c :: replaceAllAux pat repl fuel rest

/-- Python replace for a non-empty pattern. -/
def replaceAll (pat repl s : List Char) : List Char :=
  replaceAllAux pat repl s.length s

/-- The sanitization chain of `send_to_telegram` (lines 206-215): the
eight successive `replace` calls that map list and line-break markup and
the encoded non-breaking space to Telegram-safe text. -/
def sanitizeMessage (m : List Char) : List Char :=
  replaceAll "&nbsp;".toList " ".toList
    (replaceAll "<br />".toList "\n".toList
      (replaceAll "<br/>".toList "\n".toList
        (replaceAll "<br>".toList "\n".toList
          (replaceAll "</li>".toList "\n".toList
            (replaceAll "<li>".toList "• ".toList
              (replaceAll "</ul>".toList "".toList
                (replaceAll "<ul>".toList "".toList m)))))))

/-! Characterisation of the categorizer. -/

/-- The buckets of `categorize_headlines` are exactly the filters of the
input by the assigned category, in input order. -/
theorem categorize_eq_filter (hs : List Headline) :
    categorize_headlines hs =
      ⟨hs.filter (fun h => decide (categoryOf h = .energyOil)),
       hs.filter (fun h => decide (categoryOf h = .constructionInfra)),
       hs.filter (fun h => decide (categoryOf h = .tendersContracts)),
       hs.filter (fun h => decide (categoryOf h = .technologyInnovation)),
       hs.filter (fun h => decide (categoryOf h = .heavyEquipment)),
       hs.filter (fun h => decide (categoryOf h = .otherNews))⟩ := by
  induction hs with
  | nil => rfl
  | cons h rest ih =>
    cases hc : categoryOf h <;>
      simp [categorize_headlines, ih, hc, List.filter_cons]

/-- Keyword hit as a proposition agrees with the Boolean test of the
source. -/
theorem kwHit_iff (kws : List (List Char)) (t : List Char) :
    kwHit kws t ↔ kwAny kws t = true := by
  simp [kwHit, kwAny, List.any_eq_true]

/-- The assigned category is the first keyword list, in the evaluation
order of the if/elif chain, whose keyword occurs in the lower-cased
title. -/
theorem categoryOf_spec (h : Headline) :
    (categoryOf h = .energyOil ↔ kwHit energy (lowerTitle h))
  ∧ (categoryOf h = .constructionInfra ↔
      ¬ kwHit energy (lowerTitle h) ∧ kwHit construction (lowerTitle h))
  ∧ (categoryOf h = .tendersContracts ↔
      ¬ kwHit energy (lowerTitle h) ∧ ¬ kwHit construction (lowerTitle h) ∧
      kwHit tenders (lowerTitle h))
  ∧ (categoryOf h = .heavyEquipment ↔
      ¬ kwHit energy (lowerTitle h) ∧ ¬ kwHit construction (lowerTitle h) ∧
      ¬ kwHit tenders (lowerTitle h) ∧ kwHit equipment (lowerTitle h))
  ∧ (categoryOf h = .technologyInnovation ↔
      ¬ kwHit energy (lowerTitle h) ∧ ¬ kwHit construction (lowerTitle h) ∧
      ¬ kwHit tenders (lowerTitle h) ∧ ¬ kwHit equipment (lowerTitle h) ∧
      kwHit tech (lowerTitle h))
  ∧ (categoryOf h = .otherNews ↔
      ¬ kwHit energy (lowerTitle h) ∧ ¬ kwHit construction (lowerTitle h) ∧
      ¬ kwHit tenders (lowerTitle h) ∧ ¬ kwHit equipment (lowerTitle h) ∧
      ¬ kwHit tech (lowerTitle h)) := by
  unfold categoryOf
  split_ifs with h1 h2 h3 h4 h5 <;> simp_all [kwHit_iff]

/-- Membership of an input headline in a given bucket is equivalent to
the assignment of the corresponding category. -/
theorem mem_bucket_iff (hs : List Headline) (h : Headline) (hmem : h ∈ hs)
    (c : Category) :
    h ∈ (match c with
      | .energyOil => (categorize_headlines hs).energyOil
      | .constructionInfra => (categorize_headlines hs).constructionInfra
      | .tendersContracts => (categorize_headlines hs).tendersContracts
      | .technologyInnovation => (categorize_headlines hs).technologyInnovation
      | .heavyEquipment => (categorize_headlines hs).heavyEquipment
      | .otherNews => (categorize_headlines hs).otherNews) ↔ categoryOf h = c := by
  cases c <;> rw [categorize_eq_filter hs] <;> simp [List.mem_filter, hmem]

/-- The title of the worked example of the specification. -/
def ongcExample : Headline :=
  ⟨"ONGC signs tender for gas pipeline".toList, "ET Infra".toList, []⟩

/-- C1: for every headline, `categorize_headlines` lower-cases the title
and assigns the headline to the first rule set whose keyword occurs as a
substring, testing the rule sets in the fixed priority order energy,
construction, tenders, equipment, tech, with Other News as the
catch-all; the title of `ongcExample` lands in Energy & Oil even though
it also contains the tender keyword. -/
theorem c1_first_match_priority (hs : List Headline) (h : Headline) (hmem : h ∈ hs) :
    (h ∈ (categorize_headlines hs).energyOil ↔ kwHit energy (lowerTitle h))
  ∧ (h ∈ (categorize_headlines hs).constructionInfra ↔
      ¬ kwHit energy (lowerTitle h) ∧ kwHit construction (lowerTitle h))
  ∧ (h ∈ (categorize_headlines hs).tendersContracts ↔
      ¬ kwHit energy (lowerTitle h) ∧ ¬ kwHit construction (lowerTitle h) ∧
      kwHit tenders (lowerTitle h))
  ∧ (h ∈ (categorize_headlines hs).heavyEquipment ↔
      ¬ kwHit energy (lowerTitle h) ∧ ¬ kwHit construction (lowerTitle h) ∧
      ¬ kwHit tenders (lowerTitle h) ∧ kwHit equipment (lowerTitle h))
  ∧ (h ∈ (categorize_headlines hs).technologyInnovation ↔
      ¬ kwHit energy (lowerTitle h) ∧ ¬ kwHit construction (lowerTitle h) ∧
      ¬ kwHit tenders (lowerTitle h) ∧ ¬ kwHit equipment (lowerTitle h) ∧
      kwHit tech (lowerTitle h))
  ∧ (h ∈ (categorize_headlines hs).otherNews ↔
      ¬ kwHit energy (lowerTitle h) ∧ ¬ kwHit construction (lowerTitle h) ∧
      ¬ kwHit tenders (lowerTitle h) ∧ ¬ kwHit equipment (lowerTitle h) ∧
      ¬ kwHit tech (lowerTitle h))
  ∧ (categorize_headlines [ongcExample]).energyOil = [ongcExample]
  ∧ kwHit tenders (lowerTitle ongcExample) := by
  refine ⟨?_, ?_, ?_, ?_, ?_, ?_, by decide, ?_⟩
  · exact (mem_bucket_iff hs h hmem .energyOil).trans (categoryOf_spec h).1
  · exact (mem_bucket_iff hs h hmem .constructionInfra).trans (categoryOf_spec h).2.1
  · exact (mem_bucket_iff hs h hmem .tendersContracts).trans (categoryOf_spec h).2.2.1
  · exact (mem_bucket_iff hs h hmem .heavyEquipment).trans (categoryOf_spec h).2.2.2.1
  · exact (mem_bucket_iff hs h hmem .technologyInnovation).trans (categoryOf_spec h).2.2.2.2.1
  · exact (mem_bucket_iff hs h hmem .otherNews).trans (categoryOf_spec h).2.2.2.2.2
  · rw [kwHit_iff]; decide

/-- Witness for C1 at the worked example. -/
theorem c1_witness :
    ongcExample ∈ [ongcExample] ∧
    (ongcExample ∈ (categorize_headlines [ongcExample]).energyOil ↔
      kwHit energy (lowerTitle ongcExample)) :=
  ⟨by simp, (c1_first_match_priority [ongcExample] ongcExample (by simp)).1⟩

/-- The six buckets of the dictionary, in its insertion order. -/
def bucketContents (b : Buckets) : List (List Headline) :=
  [b.energyOil, b.constructionInfra, b.tendersContracts,
   b.technologyInnovation, b.heavyEquipment, b.otherNews]

/-- C2: the buckets partition the input — the bucket lengths sum to the
input length, and each input headline belongs to exactly one bucket. -/
theorem c2_buckets_partition (hs : List Headline) :
    ((bucketContents (categorize_headlines hs)).map List.length).sum = hs.length
  ∧ ∀ h ∈ hs,
      (bucketContents (categorize_headlines hs)).countP (fun bkt => decide (h ∈ bkt)) = 1 := by
  rw [categorize_eq_filter hs]
  constructor
  · simp only [bucketContents, List.map_cons, List.map_nil, List.sum_cons, List.sum_nil]
    induction hs with
    | nil => simp
    | cons h rest ih =>
      cases hc : categoryOf h <;> simp [List.filter_cons, hc] <;> omega
  · intro h hmem
    cases hc : categoryOf h <;>
      simp [bucketContents, List.countP_cons, List.mem_filter, hmem, hc]

/-- A concrete headline used to witness the partition claim. -/
def sampleHeadline : Headline :=
  ⟨"metro line opens".toList, "ET Infra".toList, []⟩

/-- Witness for C2 on a one-element input. -/
theorem c2_witness :
    ((bucketContents (categorize_headlines [sampleHeadline])).map List.length).sum = 1
  ∧ (bucketContents (categorize_headlines [sampleHeadline])).countP
      (fun bkt => decide (sampleHeadline ∈ bkt)) = 1 :=
  ⟨(c2_buckets_partition [sampleHeadline]).1,
   (c2_buckets_partition [sampleHeadline]).2 sampleHeadline (by simp)⟩

/-- C10: each bucket returned by `categorize_headlines` is a subsequence
of the input list, so categorization never reorders headlines. -/
theorem c10_buckets_subsequences (hs : List Headline) :
    List.Sublist (categorize_headlines hs).energyOil hs
  ∧ List.Sublist (categorize_headlines hs).constructionInfra hs
  ∧ List.Sublist (categorize_headlines hs).tendersContracts hs
  ∧ List.Sublist (categorize_headlines hs).technologyInnovation hs
  ∧ List.Sublist (categorize_headlines hs).heavyEquipment hs
  ∧ List.Sublist (categorize_headlines hs).otherNews hs := by
  rw [categorize_eq_filter hs]
  exact ⟨List.filter_sublist _, List.filter_sublist _, List.filter_sublist _,
    List.filter_sublist _, List.filter_sublist _, List.filter_sublist _⟩

/-! Composer and dispatcher claims. -/

/-- A member of a contiguous part of a list is a member of the list. -/
theorem mem_of_part {l₁ l₂ : List Char} {c : Char} (h : l₁ <:+: l₂) (hc : c ∈ l₁) :
    c ∈ l₂ := by
  obtain ⟨s, t, rfl⟩ := h
  simp [hc]

/-- The full signature splits into the rocket prelude and the signature
line named by the specification. -/
theorem signatureFull_split :
    signatureFull = "🚀 ".toList ++ signatureLine := by decide

/-- Every fallback digest ends with the fixed signature. -/
theorem fallback_ends_with_signature (setList : SetOrder) (cat : Buckets) (now : NowIST) :
    ∃ pre, create_fallback_digest setList cat now = pre ++ signatureFull := by
  unfold create_fallback_digest
  exact ⟨_, rfl⟩

/-- C4: composition never raises to its caller — when the generative
backend fails (modelled by the backend returning no text, covering both
an error result and a raised exception), the composer returns the
deterministic fallback digest, which is non-empty and contains the fixed
signature line. -/
theorem c4_backend_failure_yields_fallback (setList : SetOrder) (cat : Buckets)
    (now : NowIST) :
    generate_digest_with_gemini (fun _ => none) setList cat now
      = create_fallback_digest setList cat now
  ∧ create_fallback_digest setList cat now ≠ []
  ∧ signatureLine <:+: create_fallback_digest setList cat now := by
  obtain ⟨pre, hpre⟩ := fallback_ends_with_signature setList cat now
  refine ⟨rfl, ?_, ?_⟩
  · rw [hpre]
    intro hEq
    rcases List.append_eq_nil.mp hEq with ⟨-, hsig⟩
    exact absurd hsig (by decide)
  · refine ⟨pre ++ "🚀 ".toList, [], ?_⟩
    rw [hpre, signatureFull_split]
    simp [List.append_assoc]

/-- The fold of `create_fallback_digest` over empty buckets adds
nothing, so the digest is the header, the no-news block and the
signature. -/
theorem fallback_empty_eq (setList : SetOrder) (now : NowIST) :
    create_fallback_digest setList Buckets.empty now =
      fallbackHeader now ++ (noNewsLine ++ ("\n\n".toList ++ signatureFull)) := by
  simp [create_fallback_digest, bucketsList, Buckets.empty, Buckets.allEmpty,
    List.append_assoc]

/-- Digit strings contain only the ten digit characters. -/
theorem mem_pyNatStrAux_digit (fuel n : Nat) (c : Char) (h : c ∈ pyNatStrAux fuel n) :
    48 ≤ c.toNat ∧ c.toNat ≤ 57 := by
  induction fuel generalizing n with
  | zero => cases n <;> simp [pyNatStrAux] at h
  | succ fuel ih =>
    cases n with
    | zero => simp [pyNatStrAux] at h
    | succ m =>
      have hEq : pyNatStrAux (fuel + 1) (m + 1)
          = pyNatStrAux fuel ((m + 1) / 10) ++ [digitChar ((m + 1) % 10)] := rfl
      rw [hEq, List.mem_append] at h
      rcases h with h | h
      · exact ih _ h
      · have hd : (m + 1) % 10 < 10 := Nat.mod_lt _ (by omega)
        have hc : c = digitChar ((m + 1) % 10) := by simpa using h
        subst hc
        interval_cases h : (m + 1) % 10 <;> decide

/-- The colon character does not occur in a printed number. -/
theorem colon_not_mem_pyNatStr (n : Nat) : ':' ∉ pyNatStr n := by
  unfold pyNatStr
  split_ifs
  · decide
  · intro h
    have := mem_pyNatStrAux_digit n n ':' h
    simp at this

/-- The colon character does not occur in the padded day field. -/
theorem colon_not_mem_pad2 (n : Nat) : ':' ∉ pad2 n := by
  unfold pad2
  split_ifs
  · intro h
    rcases List.mem_cons.mp h with h | h
    · exact absurd h (by decide)
    · exact colon_not_mem_pyNatStr n h
  · exact colon_not_mem_pyNatStr n

/-- The colon character does not occur in any month name. -/
theorem colon_not_mem_monthName (m : Nat) : ':' ∉ monthNamesList.getD m [] := by
  by_cases hm : m < 12
  · interval_cases m <;> decide
  · have hlen : monthNamesList.length = 12 := by decide
    rw [List.getD_eq_default _ _ (by omega)]
    simp

/-- The colon character does not occur in either greeting. -/
theorem colon_not_mem_greeting (hour : Nat) : ':' ∉ greetingFor hour := by
  unfold greetingFor
  split_ifs <;> decide

/-- The colon character does not occur in the date string. -/
theorem colon_not_mem_dateStr (now : NowIST) : ':' ∉ dateStr now := by
  unfold dateStr
  intro h
  rcases List.mem_append.mp h with h | h
  · rcases List.mem_append.mp h with h | h
    · rcases List.mem_append.mp h with h | h
      · rcases List.mem_append.mp h with h | h
        · exact colon_not_mem_pad2 _ h
        · exact absurd h (by decide)
      · exact colon_not_mem_monthName _ h
    · exact absurd h (by decide)
  · exact colon_not_mem_pyNatStr _ h

/-- The colon character does not occur in the all-empty fallback digest. -/
theorem colon_not_mem_empty_digest (setList : SetOrder) (now : NowIST) :
    ':' ∉ create_fallback_digest setList Buckets.empty now := by
  rw [fallback_empty_eq]
  intro h
  rcases List.mem_append.mp h with h | h
  · unfold fallbackHeader at h
    rcases List.mem_append.mp h with h | h
    · rcases List.mem_append.mp h with h | h
      · rcases List.mem_append.mp h with h | h
        · rcases List.mem_append.mp h with h | h
          · exact absurd h (by decide)
          · exact colon_not_mem_greeting _ h
        · exact absurd h (by decide)
      · exact colon_not_mem_dateStr now h
    · exact absurd h (by decide)
  · rcases List.mem_append.mp h with h | h
    · exact absurd h (by decide)
    · rcases List.mem_append.mp h with h | h
      · exact absurd h (by decide)
      · exact absurd h (by decide)

/-- C7: with every bucket empty, the fallback digest contains the
no-news line and the fixed signature line, and contains no category
heading for any of the (empty) buckets. -/
theorem c7_empty_buckets_digest (setList : SetOrder) (now : NowIST) :
    noNewsLine <:+: create_fallback_digest setList Buckets.empty now
  ∧ signatureLine <:+: create_fallback_digest setList Buckets.empty now
  ∧ ∀ p ∈ bucketsList Buckets.empty,
      ¬ (("<b>".toList ++ p.1 ++ ":</b>".toList)
          <:+: create_fallback_digest setList Buckets.empty now) := by
  refine ⟨?_, ?_, ?_⟩
  · refine ⟨fallbackHeader now, "\n\n".toList ++ signatureFull, ?_⟩
    rw [fallback_empty_eq]
    simp [List.append_assoc]
  · refine ⟨fallbackHeader now ++ noNewsLine ++ "\n\n".toList ++ "🚀 ".toList, [], ?_⟩
    rw [fallback_empty_eq, signatureFull_split]
    simp [List.append_assoc]
  · intro p _ habs
    have hcolon : ':' ∈ "<b>".toList ++ p.1 ++ ":</b>".toList := by
      simp [List.mem_append]
    exact colon_not_mem_empty_digest setList now (mem_of_part habs hcolon)

/-- A time used to instantiate the composer claims. -/
def nowWitness : NowIST := ⟨15, 23, 8, 2026⟩

/-- Witness for C7 at a concrete set ordering, time and bucket name. -/
theorem c7_witness :
    noNewsLine <:+: create_fallback_digest (fun xs => xs.dedup) Buckets.empty nowWitness
  ∧ ¬ (("<b>".toList ++ "Energy & Oil".toList ++ ":</b>".toList)
        <:+: create_fallback_digest (fun xs => xs.dedup) Buckets.empty nowWitness) :=
  ⟨(c7_empty_buckets_digest (fun xs => xs.dedup) nowWitness).1,
   (c7_empty_buckets_digest (fun xs => xs.dedup) nowWitness).2.2
     ("Energy & Oil".toList, []) (by decide)⟩

/-- C8 counterexample: the dispatcher sanitization maps the fragment
with a closing list tag followed by a break tag to a bullet and TWO
newlines, so the fragment neither equals nor contains the claimed
bullet-plus-single-newline text. -/
theorem c8_counterexample :
    sanitizeMessage "<li>Foo</li><br>Bar".toList ≠ "• Foo\nBar".toList
  ∧ ¬ ("• Foo\nBar".toList <:+: sanitizeMessage "<li>Foo</li><br>Bar".toList) := by
  constructor
  · decide
  · decide

/-- C8 amended: the sanitization replaces the list-item tag by a bullet
prefix, and each of the closing list tag and the break tag by its own
newline, so the fragment becomes bullet, Foo, two newlines, Bar — also
inside a longer message. -/
theorem c8_sanitize_list_break_markup :
    sanitizeMessage "<li>Foo</li><br>Bar".toList = "• Foo\n\nBar".toList
  ∧ sanitizeMessage "A<li>Foo</li><br>BarZ".toList = "A• Foo\n\nBarZ".toList := by
  constructor
  · decide
  · decide

/-- Replacing the set ordering by another one that agrees on every
per-bucket source list leaves the bucket summary line unchanged. -/
theorem fallbackBucketLine_congr (f g : SetOrder) (name : List Char)
    (items : List Headline)
    (h : f (items.map Headline.source) = g (items.map Headline.source)) :
    fallbackBucketLine f name items = fallbackBucketLine g name items := by
  unfold fallbackBucketLine
  rw [h]

/-- The fallback digest depends on the set ordering only through its
values on the six per-bucket source lists. -/
theorem fallback_setList_congr (f g : SetOrder) (cat : Buckets) (now : NowIST)
    (h : ∀ items ∈ bucketContents cat,
      f (items.map Headline.source) = g (items.map Headline.source)) :
    create_fallback_digest f cat now = create_fallback_digest g cat now := by
  unfold create_fallback_digest
  simp only [bucketsList, List.foldl_cons, List.foldl_nil]
  rw [fallbackBucketLine_congr f g _ _ (h cat.energyOil (by simp [bucketContents])),
    fallbackBucketLine_congr f g _ _ (h cat.constructionInfra (by simp [bucketContents])),
    fallbackBucketLine_congr f g _ _ (h cat.tendersContracts (by simp [bucketContents])),
    fallbackBucketLine_congr f g _ _ (h cat.technologyInnovation (by simp [bucketContents])),
    fallbackBucketLine_congr f g _ _ (h cat.heavyEquipment (by simp [bucketContents])),
    fallbackBucketLine_congr f g _ _ (h cat.otherNews (by simp [bucketContents]))]

/-- Headlines and buckets exhibiting two distinct source labels in one
bucket. -/
def headlineSrcA : Headline := ⟨"oil find".toList, "A".toList, []⟩

/-- Second headline with a different source label. -/
def headlineSrcB : Headline := ⟨"oil rig".toList, "B".toList, []⟩

/-- A categorized input whose first bucket has two distinct sources. -/
def twoSourceBuckets : Buckets := ⟨[headlineSrcA, headlineSrcB], [], [], [], [], []⟩

/-- A time used to instantiate the determinism counterexample. -/
def nowSample : NowIST := ⟨9, 1, 0, 2025⟩

/-- C9 counterexample: the fallback composer is NOT deterministic across
runs — the order of the per-bucket source-label set depends on the
per-process string hash seed, and two admissible orderings of the same
distinct labels yield digests that differ character for character on the
same categorized input at the same time. -/
theorem c9_counterexample :
    ¬ ∀ (f g : SetOrder), SetOrderOk f → SetOrderOk g →
        ∀ (cat : Buckets) (now : NowIST),
          create_fallback_digest f cat now = create_fallback_digest g cat now := by
  intro hclaim
  have h := hclaim (fun xs => xs.dedup) (fun xs => xs.dedup.reverse)
    (fun _ => List.Perm.refl _) (fun _ => List.reverse_perm _)
    twoSourceBuckets nowSample
  exact absurd h (by decide)

/-- C9 amended: the fallback composer is deterministic up to the
ordering of each summary line's two source labels — for a fixed
categorized input and time, any two runs (any two admissible orderings
of the distinct per-bucket source labels) produce character-for-character
identical output whenever every bucket carries at most one distinct
source label. -/
theorem c9_deterministic_up_to_set_order (f g : SetOrder)
    (hf : SetOrderOk f) (hg : SetOrderOk g) (cat : Buckets) (now : NowIST)
    (hone : ∀ items ∈ bucketContents cat,
      ((items.map Headline.source).dedup).length ≤ 1) :
    create_fallback_digest f cat now = create_fallback_digest g cat now := by
  apply fallback_setList_congr
  intro items hitems
  have hf' := hf (items.map Headline.source)
  have hg' := hg (items.map Headline.source)
  have h1 := hone items hitems
  cases hd : (items.map Headline.source).dedup with
  | nil =>
    rw [hd] at hf' hg'
    rw [List.perm_nil.mp hf', List.perm_nil.mp hg']
  | cons a t =>
    cases t with
    | nil =>
      rw [hd] at hf' hg'
      rw [List.perm_singleton.mp hf', List.perm_singleton.mp hg']
    | cons b t2 =>
      rw [hd] at h1
      simp at h1

/-- A categorized input with a single source label in its only
non-empty bucket. -/
def oneSourceBuckets : Buckets := ⟨[headlineSrcA], [], [], [], [], []⟩

/-- Witness for C9 at two concrete admissible orderings and a
single-source input. -/
theorem c9_witness :
    SetOrderOk (fun xs => xs.dedup)
  ∧ SetOrderOk (fun xs => xs.dedup.reverse)
  ∧ (∀ items ∈ bucketContents oneSourceBuckets,
      ((items.map Headline.source).dedup).length ≤ 1)
  ∧ create_fallback_digest (fun xs => xs.dedup) oneSourceBuckets nowWitness
      = create_fallback_digest (fun xs => xs.dedup.reverse) oneSourceBuckets nowWitness :=
  ⟨fun _ => List.Perm.refl _, fun _ => List.reverse_perm _, by decide,
   c9_deterministic_up_to_set_order (fun xs => xs.dedup) (fun xs => xs.dedup.reverse)
     (fun _ => List.Perm.refl _) (fun _ => List.reverse_perm _)
     oneSourceBuckets nowWitness (by decide)⟩

/-! Normalisation lemmas for `clean_text`. -/

/-- The run-adjacency relation of normalised text: a whitespace character
is never followed by another whitespace character. -/
def NoWsRun (x y : Char) : Prop := pyIsSpace x = true → pyIsSpace y = false

instance : ∀ x y, Decidable (NoWsRun x y) := fun x y =>
  inferInstanceAs (Decidable (pyIsSpace x = true → pyIsSpace y = false))

/-- The head of what remains after dropping a prefix satisfying `p`
falsifies `p`. -/
theorem dropWhile_head_false (p : Char → Bool) (l : List Char) (c : Char)
    (h : (l.dropWhile p).head? = some c) : p c = false := by
  induction l with
  | nil => simp at h
  | cons a t ih =>
    by_cases ha : p a = true
    · rw [List.dropWhile_cons_of_pos ha] at h
      exact ih h
    · rw [List.dropWhile_cons_of_neg ha] at h
      cases h
      simpa using ha

/-- The head of a stripped string is not whitespace. -/
theorem pyStrip_head (l : List Char) (c : Char)
    (h : (pyStrip l).head? = some c) : pyIsSpace c = false := by
  unfold pyStrip at h
  rw [List.head?_reverse] at h
  obtain ⟨ys, hys⟩ := List.getLast?_eq_some_iff.mp h
  have hsuf := List.dropWhile_suffix (l := (l.dropWhile pyIsSpace).reverse) pyIsSpace
  obtain ⟨w, hw⟩ := hsuf
  have hlast : (l.dropWhile pyIsSpace).reverse.getLast? = some c := by
    rw [← hw, List.getLast?_append, hys]
    simp
  rw [List.getLast?_reverse] at hlast
  exact dropWhile_head_false pyIsSpace l c hlast

/-- The last character of a stripped string is not whitespace. -/
theorem pyStrip_last (l : List Char) (c : Char)
    (h : (pyStrip l).getLast? = some c) : pyIsSpace c = false := by
  unfold pyStrip at h
  rw [List.getLast?_reverse] at h
  exact dropWhile_head_false pyIsSpace _ c h

/-- Stripping a string whose ends are not whitespace changes nothing. -/
theorem pyStrip_eq_self (l : List Char)
    (h1 : ∀ c, l.head? = some c → pyIsSpace c = false)
    (h2 : ∀ c, l.getLast? = some c → pyIsSpace c = false) : pyStrip l = l := by
  cases l with
  | nil => rfl
  | cons a t =>
    have ha : pyIsSpace a = false := h1 a rfl
    unfold pyStrip
    rw [List.dropWhile_cons_of_neg (by simp [ha])]
    cases hr : (a :: t).reverse with
    | nil => exact absurd hr (by simp)
    | cons b rb =>
      have hb : (a :: t).getLast? = some b := by
        rw [← List.head?_reverse, hr]; rfl
      have hb' : ¬ (pyIsSpace b = true) := by simp [h2 b hb]
      rw [List.dropWhile_cons_of_neg hb']
      rw [← hr, List.reverse_reverse]

/-- Every character of the collapsed text is either the space emitted for
a run or a non-whitespace character of the input. -/
theorem collapseWs_mem (b : Bool) (l : List Char) (c : Char)
    (h : c ∈ collapseWs b l) :
    c = ' ' ∨ (c ∈ l ∧ pyIsSpace c = false) := by
  induction l generalizing b with
  | nil => simp [collapseWs] at h
  | cons a t ih =>
    by_cases ha : pyIsSpace a = true
    · cases b with
      | true =>
        rw [show collapseWs true (a :: t) = collapseWs true t by simp [collapseWs, ha]] at h
        rcases ih true h with h' | h'
        · exact Or.inl h'
        · exact Or.inr ⟨List.mem_cons_of_mem a h'.1, h'.2⟩
      | false =>
        rw [show collapseWs false (a :: t) = ' ' :: collapseWs true t by
          simp [collapseWs, ha]] at h
        rcases List.mem_cons.mp h with h' | h'
        · exact Or.inl h'
        · rcases ih true h' with h'' | h''
          · exact Or.inl h''
          · exact Or.inr ⟨List.mem_cons_of_mem a h''.1, h''.2⟩
    · rw [show collapseWs b (a :: t) = a :: collapseWs false t by
        simp [collapseWs, ha]] at h
      rcases List.mem_cons.mp h with h' | h'
      · rw [h']
        exact Or.inr ⟨List.mem_cons_self a t, by simpa using ha⟩
      · rcases ih false h' with h'' | h''
        · exact Or.inl h''
        · exact Or.inr ⟨List.mem_cons_of_mem a h''.1, h''.2⟩

/-- After a run has emitted its space, the next emitted character is not
whitespace. -/
theorem collapseWs_head_true (l : List Char) (c : Char)
    (h : (collapseWs true l).head? = some c) : pyIsSpace c = false := by
  induction l with
  | nil => simp [collapseWs] at h
  | cons a t ih =>
    by_cases ha : pyIsSpace a = true
    · rw [show collapseWs true (a :: t) = collapseWs true t by simp [collapseWs, ha]] at h
      exact ih h
    · rw [show collapseWs true (a :: t) = a :: collapseWs false t by
        simp [collapseWs, ha]] at h
      cases h
      simpa using ha

/-- Collapsed text never carries two adjacent whitespace characters. -/
theorem collapseWs_chain (b : Bool) (l : List Char) :
    (collapseWs b l).Chain' NoWsRun := by
  induction l generalizing b with
  | nil => simp [collapseWs]
  | cons a t ih =>
    by_cases ha : pyIsSpace a = true
    · cases b with
      | true =>
        rw [show collapseWs true (a :: t) = collapseWs true t by simp [collapseWs, ha]]
        exact ih true
      | false =>
        rw [show collapseWs false (a :: t) = ' ' :: collapseWs true t by
          simp [collapseWs, ha]]
        rw [List.chain'_cons']
        exact ⟨fun y hy _ => collapseWs_head_true t y hy, ih true⟩
    · rw [show collapseWs b (a :: t) = a :: collapseWs false t by simp [collapseWs, ha]]
      rw [List.chain'_cons']
      refine ⟨fun y _ hxa => ?_, ih false⟩
      exact absurd hxa (by simpa using ha)

/-- A non-whitespace character of the input survives collapsing. -/
theorem collapseWs_keeps_nonws (b : Bool) (l : List Char) (c : Char)
    (hc : c ∈ l) (hw : pyIsSpace c = false) : c ∈ collapseWs b l := by
  induction l generalizing b with
  | nil => simp at hc
  | cons a t ih =>
    by_cases ha : pyIsSpace a = true
    · have hct : c ∈ t := by
        rcases List.mem_cons.mp hc with h | h
        · subst h; rw [ha] at hw; cases hw
        · exact h
      cases b with
      | true =>
        rw [show collapseWs true (a :: t) = collapseWs true t by simp [collapseWs, ha]]
        exact ih true hct
      | false =>
        rw [show collapseWs false (a :: t) = ' ' :: collapseWs true t by
          simp [collapseWs, ha]]
        exact List.mem_cons_of_mem _ (ih true hct)
    · rw [show collapseWs b (a :: t) = a :: collapseWs false t by simp [collapseWs, ha]]
      rcases List.mem_cons.mp hc with h | h
      · subst h; exact List.mem_cons_self c _
      · exact List.mem_cons_of_mem _ (ih false h)

/-- Collapsing a string whose last character is not whitespace keeps a
non-whitespace last character. -/
theorem collapseWs_last (l : List Char)
    (h2 : ∀ c, l.getLast? = some c → pyIsSpace c = false) :
    ∀ (b : Bool) (c : Char), (collapseWs b l).getLast? = some c →
      pyIsSpace c = false := by
  induction l with
  | nil => intro b c h; simp [collapseWs] at h
  | cons a t ih =>
    intro b c h
    cases t with
    | nil =>
      have ha : pyIsSpace a = false := h2 a rfl
      rw [show collapseWs b [a] = [a] by cases b <;> simp [collapseWs, ha]] at h
      cases h
      exact ha
    | cons a2 t2 =>
      have h2' : ∀ c, (a2 :: t2).getLast? = some c → pyIsSpace c = false := by
        intro c hcc
        exact h2 c (by rw [List.getLast?_cons_cons]; exact hcc)
      have hnonempty : ∀ b' : Bool, collapseWs b' (a2 :: t2) ≠ [] := by
        intro b' hEq
        obtain ⟨e, he⟩ : ∃ e, (a2 :: t2).getLast? = some e := by
          cases hgl : (a2 :: t2).getLast? with
          | none => simp [List.getLast?_eq_none_iff] at hgl
          | some e => exact ⟨e, rfl⟩
        have hmem : e ∈ a2 :: t2 := by
          obtain ⟨ys, hys⟩ := List.getLast?_eq_some_iff.mp he
          rw [hys]; simp
        have := collapseWs_keeps_nonws b' _ e hmem (h2' e he)
        rw [hEq] at this
        simp at this
      by_cases ha : pyIsSpace a = true
      · cases b with
        | true =>
          rw [show collapseWs true (a :: a2 :: t2) = collapseWs true (a2 :: t2) by
            simp [collapseWs, ha]] at h
          exact ih h2' true c h
        | false =>
          rw [show collapseWs false (a :: a2 :: t2) = ' ' :: collapseWs true (a2 :: t2) by
            simp [collapseWs, ha]] at h
          cases hX : collapseWs true (a2 :: t2) with
          | nil => exact absurd hX (hnonempty true)
          | cons x xs =>
            rw [hX, List.getLast?_cons_cons] at h
            exact ih h2' true c (by rw [hX]; exact h)
      · rw [show collapseWs b (a :: a2 :: t2) = a :: collapseWs false (a2 :: t2) by
          simp [collapseWs, ha]] at h
        cases hX : collapseWs false (a2 :: t2) with
        | nil => exact absurd hX (hnonempty false)
        | cons x xs =>
          rw [hX, List.getLast?_cons_cons] at h
          exact ih h2' false c (by rw [hX]; exact h)

/-- Collapsing is the identity on text whose whitespace is single spaces
with no two adjacent. -/
theorem collapseWs_eq_self (l : List Char)
    (hsp : ∀ c ∈ l, pyIsSpace c = true → c = ' ')
    (hch : l.Chain' NoWsRun) : collapseWs false l = l := by
  induction l with
  | nil => rfl
  | cons a t ih =>
    rw [List.chain'_cons'] at hch
    have hsp' : ∀ c ∈ t, pyIsSpace c = true → c = ' ' :=
      fun c hc => hsp c (List.mem_cons_of_mem a hc)
    by_cases ha : pyIsSpace a = true
    · have ha' : a = ' ' := hsp a (List.mem_cons_self a t) ha
      have htt : collapseWs true t = collapseWs false t := by
        cases t with
        | nil => rfl
        | cons b tb =>
          have hb : pyIsSpace b = false := hch.1 b rfl ha
          simp [collapseWs, hb]
      calc collapseWs false (a :: t) = ' ' :: collapseWs true t := by
            simp [collapseWs, ha]
        _ = ' ' :: t := by rw [htt, ih hsp' hch.2]
        _ = a :: t := by rw [ha']
    · rw [show collapseWs false (a :: t) = a :: collapseWs false t by
        simp [collapseWs, ha]]
      rw [ih hsp' hch.2]

/-- Characters of the stripped string come from the input. -/
theorem mem_pyStrip (l : List Char) (c : Char) (h : c ∈ pyStrip l) : c ∈ l := by
  unfold pyStrip at h
  rw [List.mem_reverse] at h
  have h1 := (List.dropWhile_sublist (l := (l.dropWhile pyIsSpace).reverse)
    pyIsSpace).subset h
  rw [List.mem_reverse] at h1
  exact (List.dropWhile_sublist pyIsSpace).subset h1

/-- The structural properties making a string a fixed point of the
pre-truncation pipeline: whitespace is single spaces, never adjacent,
absent from both ends, and every character is ASCII. -/
structure CleanNormal (t : List Char) : Prop where
  wsSpace : ∀ c ∈ t, pyIsSpace c = true → c = ' '
  chain : t.Chain' NoWsRun
  headOk : ∀ c, t.head? = some c → pyIsSpace c = false
  lastOk : ∀ c, t.getLast? = some c → pyIsSpace c = false
  ascii : ∀ c ∈ t, c.toNat ≤ 127

/-- For ASCII input, the ASCII filter drops nothing and the
pre-truncation text satisfies all the structural properties. -/
theorem cleanedCore_normal (s : List Char) (hascii : ∀ c ∈ s, c.toNat ≤ 127) :
    CleanNormal (cleanedCore s) := by
  have hmemu : ∀ c ∈ collapseWs false (pyStrip s),
      c = ' ' ∨ (c ∈ pyStrip s ∧ pyIsSpace c = false) :=
    fun c hc => collapseWs_mem false _ c hc
  have huascii : ∀ c ∈ collapseWs false (pyStrip s), c.toNat ≤ 127 := by
    intro c hc
    rcases hmemu c hc with rfl | ⟨hmem, -⟩
    · decide
    · exact hascii c (mem_pyStrip s c hmem)
  have hcore : cleanedCore s = collapseWs false (pyStrip s) := by
    unfold cleanedCore
    exact List.filter_eq_self.mpr fun c hc => by simp [isAsciiChar, huascii c hc]
  rw [hcore]
  refine ⟨?_, collapseWs_chain false _, ?_, ?_, huascii⟩
  · intro c hc hw
    rcases hmemu c hc with rfl | ⟨-, hnw⟩
    · rfl
    · rw [hw] at hnw; cases hnw
  · intro c hc
    cases hps : pyStrip s with
    | nil => rw [hps] at hc; cases hc
    | cons a t =>
      have ha : pyIsSpace a = false := pyStrip_head s a (by rw [hps]; rfl)
      rw [hps, show collapseWs false (a :: t) = a :: collapseWs false t by
        simp [collapseWs, ha]] at hc
      cases hc
      exact ha
  · exact collapseWs_last (pyStrip s) (fun c hc => pyStrip_last s c hc) false

/-- The pre-truncation pipeline is the identity on a structurally normal
string. -/
theorem cleanedCore_of_normal (t : List Char) (h : CleanNormal t) :
    cleanedCore t = t := by
  unfold cleanedCore
  rw [pyStrip_eq_self t h.headOk h.lastOk, collapseWs_eq_self t h.wsSpace h.chain]
  exact List.filter_eq_self.mpr fun c hc => by simp [isAsciiChar, h.ascii c hc]

/-- Truncating a normal string and appending the ellipsis marker yields
a normal string again. -/
theorem truncation_normal (t : List Char) (h : CleanNormal t)
    (hlen : 200 < t.length) :
    CleanNormal (t.take 200 ++ ['.', '.', '.']) := by
  refine ⟨?_, ?_, ?_, ?_, ?_⟩
  · intro c hc hw
    rcases List.mem_append.mp hc with h' | h'
    · exact h.wsSpace c (List.take_subset _ _ h') hw
    · have : c = '.' := by simpa using h'
      rw [this] at hw
      cases hw
  · have hdots : List.Chain' NoWsRun ['.', '.', '.'] := by
      rw [List.chain'_cons, List.chain'_cons]
      refine ⟨fun hws => absurd hws (by decide), fun hws => absurd hws (by decide),
        List.chain'_singleton _⟩
    refine List.chain'_append.mpr ⟨h.chain.take 200, hdots, ?_⟩
    intro x _ y hy
    have : y = '.' := by simpa using congrArg (Option.getD · ' ') hy.symm
    rw [this]
    exact fun _ => by decide
  · intro c hc
    cases ht : t with
    | nil => rw [ht] at hlen; simp at hlen
    | cons a t' =>
      rw [ht, List.take_succ_cons, List.cons_append, List.head?_cons] at hc
      have ha := h.headOk a (by rw [ht]; rfl)
      cases hc
      exact ha
  · intro c hc
    rw [List.getLast?_append] at hc
    have hcd : '.' = c := by simpa using hc
    rw [← hcd]
    decide
  · intro c hc
    rcases List.mem_append.mp hc with h' | h'
    · exact h.ascii c (List.take_subset _ _ h')
    · have : c = '.' := by simpa using h'
      rw [this]
      decide

/-- The branch structure of `clean_text` in terms of the pre-truncation
text; the empty-input branch coincides with the general one because the
pipeline maps empty to empty. -/
theorem clean_text_eq (s : List Char) :
    clean_text s = if (cleanedCore s).length > 200
      then (cleanedCore s).take 200 ++ ['.', '.', '.'] else cleanedCore s := by
  by_cases hs : s = []
  · subst hs
    have h0 : cleanedCore ([] : List Char) = [] := rfl
    rw [h0]
    rfl
  · unfold clean_text
    rw [if_neg hs]

/-- C3 counterexample: `clean_text` is not idempotent — removing a
non-ASCII character after whitespace collapsing can leave a double space
(or a trailing space) that a second application removes. -/
theorem c3_counterexample :
    clean_text (clean_text "a é".toList) ≠ clean_text "a é".toList := by decide

/-- C3 amended: `clean_text` is idempotent on every input whose
characters are all ASCII (at most 0x7F); the counterexample forces the
restriction because the non-ASCII removal step runs after whitespace
collapsing and can create new whitespace runs or trailing whitespace. -/
theorem c3_clean_idempotent_on_ascii (s : List Char)
    (hascii : ∀ c ∈ s, c.toNat ≤ 127) :
    clean_text (clean_text s) = clean_text s := by
  have hnorm := cleanedCore_normal s hascii
  rw [clean_text_eq s]
  by_cases hlen : (cleanedCore s).length > 200
  · rw [if_pos hlen]
    have hr := truncation_normal _ hnorm hlen
    have hcore_r := cleanedCore_of_normal _ hr
    rw [clean_text_eq, hcore_r]
    have hlenr : ((cleanedCore s).take 200 ++ ['.', '.', '.']).length = 203 := by
      have h3 : (['.', '.', '.'] : List Char).length = 3 := rfl
      rw [List.length_append, List.length_take, h3]
      omega
    rw [if_pos (by omega)]
    have h200 : ((cleanedCore s).take 200).length = 200 := by
      simp only [List.length_take]
      omega
    rw [List.take_left' h200]
  · rw [if_neg hlen]
    have hfix := cleanedCore_of_normal _ hnorm
    rw [clean_text_eq, hfix, if_neg hlen]

/-- An ASCII input with plenty of whitespace to normalise. -/
def asciiSample : List Char := "  hello   world  ".toList

/-- Witness for C3 on a concrete ASCII input. -/
theorem c3_witness :
    (∀ c ∈ asciiSample, c.toNat ≤ 127)
  ∧ clean_text (clean_text asciiSample) = clean_text asciiSample :=
  ⟨by decide, c3_clean_idempotent_on_ascii asciiSample (by decide)⟩

/-- C5: the cleaned string never exceeds 203 characters; a
pre-truncation text longer than 200 characters is cut to 200 with the
ellipsis marker appended, and otherwise returned unchanged. -/
theorem c5_clean_truncation (s : List Char) :
    (clean_text s).length ≤ 203
  ∧ ((cleanedCore s).length > 200 →
      clean_text s = (cleanedCore s).take 200 ++ ['.', '.', '.'])
  ∧ ((cleanedCore s).length ≤ 200 → clean_text s = cleanedCore s) := by
  rw [clean_text_eq s]
  by_cases hlen : (cleanedCore s).length > 200
  · rw [if_pos hlen]
    refine ⟨?_, fun _ => rfl, fun h => absurd hlen (by omega)⟩
    have h3 : (['.', '.', '.'] : List Char).length = 3 := rfl
    rw [List.length_append, List.length_take, h3]
    omega
  · rw [if_neg hlen]
    exact ⟨by omega, fun h => absurd h hlen, fun _ => rfl⟩

/-- A 201-character input that triggers truncation. -/
def longTitle : List Char := List.replicate 201 'a'

/-- Witness for C5 at an input long enough to truncate. -/
theorem c5_witness :
    (cleanedCore longTitle).length > 200
  ∧ clean_text longTitle = (cleanedCore longTitle).take 200 ++ ['.', '.', '.'] :=
  ⟨by decide, (c5_clean_truncation longTitle).2.1 (by decide)⟩

/-- Printable ASCII as named by the specification claim. -/
def isPrintableAscii (c : Char) : Prop := 32 ≤ c.toNat ∧ c.toNat ≤ 126

instance : DecidablePred isPrintableAscii := fun c =>
  inferInstanceAs (Decidable (32 ≤ c.toNat ∧ c.toNat ≤ 126))

/-- C6 counterexample: `clean_text` keeps the non-printable control
character 0x01 — the code removes only characters above the ASCII range,
not characters outside the printable-ASCII range. -/
theorem c6_counterexample :
    clean_text [Char.ofNat 1] = [Char.ofNat 1]
  ∧ ¬ isPrintableAscii (Char.ofNat 1) := by
  constructor
  · decide
  · decide

/-- C6 amended: every character of the cleaned string lies in the ASCII
range (at most 0x7F) — though not necessarily in the printable range —
and empty input yields the empty string. -/
theorem c6_output_ascii (s : List Char) :
    (∀ c ∈ clean_text s, c.toNat ≤ 127) ∧ clean_text ([] : List Char) = [] := by
  refine ⟨?_, rfl⟩
  intro c hc
  rw [clean_text_eq s] at hc
  have hcore : ∀ d ∈ cleanedCore s, d.toNat ≤ 127 := by
    intro d hd
    unfold cleanedCore at hd
    rw [List.mem_filter] at hd
    simpa [isAsciiChar] using hd.2
  split_ifs at hc with hlen
  · rcases List.mem_append.mp hc with h | h
    · exact hcore c (List.take_subset _ _ h)
    · have : c = '.' := by simpa using h
      rw [this]
      decide
  · exact hcore c hc

/-- Witness for C6 on a concrete input and character. -/
theorem c6_witness : 'a' ∈ clean_text ['a'] ∧ 'a'.toNat ≤ 127 :=
  ⟨by decide, (c6_output_ascii ['a']).1 'a' (by decide)⟩

end DigestBot
